import Mathlib

/-!
Shallow embedding of the reactor core of this repository, centred on
`src/socketengine_kqueue.cpp` (the edge-triggered kernel-event-queue backend
plus its handle table) and `src/modules/extra/m_mysql.cpp` (job queue,
result queue, worker thread and withdrawal logic).

Conventions:
- The handle table `ref` (a raw array of `EventHandler*` indexed by fd in the
  original) is a total map `Int → Option EventHandler`; `none` is a NULL slot.
- The kernel's kqueue interest set is a map `Int → Int → Option Bool`:
  for a descriptor and a filter, `some osh` means interest is registered,
  with `osh` recording the `EV_ONESHOT` flag; `none` means no interest.
  `EV_ONESHOT` semantics follow the documented kqueue contract: a oneshot
  event is deleted by the kernel when it is retrieved by a wait call.
- `kevent` syscall outcomes that depend on the outside world are inputs
  (`kevOk`); an `EV_DELETE` can only succeed when the interest exists
  (the kernel reports `ENOENT` otherwise).
- C callbacks (`HandleEvent`) are collaborator code: their effect on the
  handle table is a function parameter of the dispatcher.
-/

/-- One registered handler: descriptor, interest direction (`Readable()`),
and an identity used to record which callback object was invoked. -/
structure EventHandler where
  fd : Int
  readable : Bool
  hid : Nat
deriving DecidableEq

/-- Filter constant from sys/event.h. -/
def EVFILT_READ : Int := -1

/-- Filter constant from sys/event.h. -/
def EVFILT_WRITE : Int := -2

/-- The handle table: descriptor to current handler, NULL slots are `none`. -/
abbrev RefTable := Int → Option EventHandler

/-- Kernel interest set: fd, filter to oneshot flag of the registered event. -/
abbrev Kern := Int → Int → Option Bool

/-- Kernel effect of a successful `kevent` `EV_ADD` (replaces any previous
registration of the same fd and filter). -/
def kadd (k : Kern) (fd filt : Int) (osh : Bool) : Kern :=
  fun a b => if a = fd ∧ b = filt then some osh else k a b

/-- Kernel effect of removing an interest (explicit `EV_DELETE`, or automatic
deletion of a oneshot event on retrieval). -/
def kdel (k : Kern) (fd filt : Int) : Kern :=
  fun a b => if a = fd ∧ b = filt then none else k a b

/-- State of `KQueueEngine`: handle table, `CurrentSetSize`, kernel queue. -/
structure KQState where
  ref : RefTable
  CurrentSetSize : Int
  kern : Kern

/-- Engine state right after the constructor: empty table, zero count. -/
def initKQ : KQState := ⟨fun _ => none, 0, fun _ _ => none⟩

/-- The filter `AddFd`/`DelFd` pass to `kevent`:
`eh->Readable() ? EVFILT_READ : EVFILT_WRITE`. -/
def ehFilt (eh : EventHandler) : Int :=
  if eh.readable then EVFILT_READ else EVFILT_WRITE

/-- The bounds test of `AddFd`/`DelFd`: `(fd < 0) || (fd > MAX_DESCRIPTORS)`. -/
def fdOutOfRange (maxD : Nat) (fd : Int) : Bool :=
  fd < 0 || fd > (maxD : Int)

/-- `KQueueEngine::GetRemainingFds`: `MAX_DESCRIPTORS - CurrentSetSize`. -/
def GetRemainingFds (maxD : Nat) (s : KQState) : Int :=
  (maxD : Int) - s.CurrentSetSize

/-- Write one slot of the handle table (`ref[fd] = v`). -/
def tset (t : RefTable) (fd : Int) (v : Option EventHandler) : RefTable :=
  fun j => if j = fd then v else t j

/-- `KQueueEngine::AddFd`. Guard order as in the source: bounds check, then
`GetRemainingFds() <= 1`, then occupied slot. On passing the guards the
source stores `ref[fd] = eh` BEFORE calling `kevent`; if that call fails
(`kevOk = false`) it returns `false` without rolling the slot back and
without incrementing `CurrentSetSize`. -/
def AddFd (maxD : Nat) (s : KQState) (eh : EventHandler) (kevOk : Bool) :
    Bool × KQState :=
  if fdOutOfRange maxD eh.fd then (false, s)
  else if GetRemainingFds maxD s ≤ 1 then (false, s)
  else if (s.ref eh.fd).isSome then (false, s)
  else
    let s1 : KQState := { s with ref := tset s.ref eh.fd (some eh) }
    if kevOk then
      (true, { s1 with
                kern := kadd s1.kern eh.fd (ehFilt eh) false,
                CurrentSetSize := s1.CurrentSetSize + 1 })
    else (false, s1)

/-- `KQueueEngine::DelFd`. Bounds check, then `kevent` `EV_DELETE` (which can
only succeed when the interest is actually registered; `kevOk = false` models
any additional syscall failure). Only on syscall success does the source
decrement `CurrentSetSize` and clear `ref[fd]`. -/
def DelFd (maxD : Nat) (s : KQState) (eh : EventHandler) (kevOk : Bool) :
    Bool × KQState :=
  if fdOutOfRange maxD eh.fd then (false, s)
  else if kevOk && (s.kern eh.fd (ehFilt eh)).isSome then
    (true, { ref := tset s.ref eh.fd none,
             CurrentSetSize := s.CurrentSetSize - 1,
             kern := kdel s.kern eh.fd (ehFilt eh) })
  else (false, s)

/-- `KQueueEngine::WantWrite`: `kevent` with `EVFILT_WRITE` and
`EV_ADD | EV_ONESHOT`. On syscall failure the source only logs. -/
def WantWrite (s : KQState) (fd : Int) (kevOk : Bool) : KQState :=
  if kevOk then { s with kern := kadd s.kern fd EVFILT_WRITE true } else s

/-- One readiness record returned by the `kevent` wait call: `ident` is the
descriptor, `filter` identifies which filter fired (`EVFILT_READ` or
`EVFILT_WRITE`), `flags` is the `u_short` status-flag word. -/
structure KEv where
  ident : Int
  filter : Int
  flags : Nat
deriving DecidableEq

/-- Kernel delivery of one event of a wait batch: the event is only
deliverable if its fd and filter are registered, and a oneshot registration
is deleted by the kernel upon retrieval. -/
def consumeEv (k : Kern) (ev : KEv) : Option Kern :=
  match k ev.ident ev.filter with
  | none => none
  | some osh => some (if osh then kdel k ev.ident ev.filter else k)

/-- Kernel production of a whole wait batch, front to back. `none` means the
batch is not producible from this interest set. -/
def produceBatch (k : Kern) : List KEv → Option Kern
  | [] => some k
  | ev :: rest =>
    match consumeEv k ev with
    | none => none
    | some k1 => produceBatch k1 rest

/-- The branch test of `DispatchEvents`: `ke_list[j].flags & EVFILT_WRITE`.
Under C integer promotion the `u_short` flags word is promoted to `int` and
ANDed with `EVFILT_WRITE = -2`, i.e. with mask `0xFFFFFFFE`: the test is
true iff some flag bit other than bit 0 is set. The `filter` field of the
event is never consulted. -/
def kqWriteTest (flags : Nat) : Bool :=
  Nat.land flags 4294967294 != 0

/-- Which callback `HandleEvent` was invoked with (`EVENT_READ` or
`EVENT_WRITE`). -/
inductive EvKind where
  | readEv
  | writeEv
deriving DecidableEq

/-- Processing of one event of the batch by `KQueueEngine::DispatchEvents`.
`handle` is the collaborator-supplied effect of `HandleEvent` on the handle
table (a callback may unregister handlers). In the write branch the source
first re-adds `EVFILT_READ`, then calls `ref[ident]->HandleEvent(...)`
without any check that `ref[ident]` is non-NULL: an empty slot is a null
pointer dereference, modelled as `Except.error ident`. -/
def dispatchOne (handle : EventHandler → EvKind → RefTable → RefTable)
    (st : RefTable × Kern) (ev : KEv) :
    Except Int ((RefTable × Kern) × (Nat × EvKind)) :=
  if kqWriteTest ev.flags then
    let k1 := kadd st.2 ev.ident EVFILT_READ false
    match st.1 ev.ident with
    | none => Except.error ev.ident
    | some eh =>
      Except.ok ((handle eh EvKind.writeEv st.1, k1), (eh.hid, EvKind.writeEv))
  else
    match st.1 ev.ident with
    | none => Except.error ev.ident
    | some eh =>
      Except.ok ((handle eh EvKind.readEv st.1, st.2), (eh.hid, EvKind.readEv))

/-- The dispatch loop of `KQueueEngine::DispatchEvents` over a wait batch,
recording each invoked callback as a pair of handler identity and event
kind. An `Except.error fd` outcome is the null dereference on `ref[fd]`. -/
def DispatchEvents (handle : EventHandler → EvKind → RefTable → RefTable)
    (st : RefTable × Kern) : List KEv →
    Except Int ((RefTable × Kern) × List (Nat × EvKind))
  | [] => Except.ok (st, [])
  | ev :: rest =>
    match dispatchOne handle st ev with
    | Except.error i => Except.error i
    | Except.ok (st1, inv) =>
      match DispatchEvents handle st1 rest with
      | Except.error i => Except.error i
      | Except.ok (stf, tr) => Except.ok (stf, inv :: tr)

/-- A concrete table with readable handlers on descriptors 1 and 2. -/
def twoTab : RefTable :=
  fun j => if j = 1 then some ⟨1, true, 1⟩
           else if j = 2 then some ⟨2, true, 2⟩ else none

/-- A callback behaviour in which handler 1's callback unregisters the
handler of descriptor 2 (mid-batch removal). -/
def unregHandle : EventHandler → EvKind → RefTable → RefTable :=
  fun eh _ t => if eh.hid = 1 then tset t 2 none else t

/-- The empty kernel interest set. -/
def kern0 : Kern := fun _ _ => none

/-- A concrete table with one readable handler, identity 7, on fd 3. -/
def oneTab : RefTable := fun j => if j = 3 then some ⟨3, true, 7⟩ else none

/-- A callback behaviour that leaves the handle table unchanged. -/
def noopHandle : EventHandler → EvKind → RefTable → RefTable :=
  fun _ _ t => t

/-- C1: the claim says an event whose descriptor has no handle-table entry at
processing time (here: handler 2 was unregistered by handler 1's callback
earlier in the same batch) is discarded without invoking a callback. The
code has no such lookup check: `DispatchEvents` evaluates
`ref[ke_list[j].ident]->HandleEvent(...)` unconditionally, so the second
event of the batch dereferences a NULL handler pointer (modelled as
`Except.error 2`) instead of being discarded. -/
theorem c1_null_deref :
    DispatchEvents unregHandle (twoTab, kern0)
      [⟨1, EVFILT_READ, 0⟩, ⟨2, EVFILT_READ, 0⟩] = Except.error 2 := by
  rfl

/-- C3: the claim says the event's direction selects the matching callback.
The code instead branches on `ke_list[j].flags & EVFILT_WRITE`, using the
filter constant `-2` as a bit mask over the status-flag word and never
reading the `filter` field: a write-readiness event (`filter = EVFILT_WRITE`)
with a zero flag word is dispatched to the READ callback, and a
read-readiness event carrying the `EV_EOF` status flag (0x8000) is
dispatched to the WRITE callback. -/
theorem c3_direction_ignored :
    ((DispatchEvents noopHandle (oneTab, kern0)
        [⟨3, EVFILT_WRITE, 0⟩]).map (fun p => p.2)
      = Except.ok [(7, EvKind.readEv)]) ∧
    ((DispatchEvents noopHandle (oneTab, kern0)
        [⟨3, EVFILT_READ, 32768⟩]).map (fun p => p.2)
      = Except.ok [(7, EvKind.writeEv)]) := by
  exact ⟨rfl, rfl⟩

/-- A queued query job (`QQueueItem`): query identity (the `SQLQuery*`) and
the identity of the `SQLConnection` it targets. -/
structure QQueueItem where
  qid : Nat
  conn : Nat
deriving DecidableEq

/-- A completed result (`RQueueItem`): the originating query identity and the
`SQLerror` id carried by its `MySQLresult` (0 is `SQL_NO_ERROR`). -/
structure RQueueItem where
  qid : Nat
  errid : Nat
deriving DecidableEq

/-- The distinguished success id of the `SQLerror` enum in sql.h (not under
src/); only its distinctness from failure ids matters here. -/
def SQL_NO_ERROR : Nat := 0

/-- Range of a C `unsigned int`. -/
def U32 : Nat := 4294967296

/-- Terminal outcome of the withdrawal loop of `ModuleSQL::OnRehash`. -/
inductive RehashOut where
  | oobRead (idx : Nat) (errs : List Nat) (qq : List QQueueItem)
  | fuelOut
deriving DecidableEq

/-- The per-connection cleanup loop of `ModuleSQL::OnRehash`:
`for (unsigned int j = qq.size() - 1; j >= 0; j--)` with body
`if (qq[j].c == conn) { qq[j].q->OnError(err); delete qq[j].q; qq.erase(qq.begin() + j); }`.
Since `j` is unsigned, `j >= 0` is always true; the decrement of `j = 0`
wraps to `U32 - 1`. The loop state carries the queue and the list of
queries failed so far (in delivery order); reading `qq[j]` with
`j ≥ qq.size()` is an out-of-bounds deque access, returned as `oobRead`.
The fuel argument only bounds the recursion and is chosen large enough to
never run out (see `rehashLoop_oob`). -/
def rehashFailLoopF (conn : Nat) :
    Nat → Nat → List QQueueItem → List Nat → RehashOut
  | 0, _, _, _ => RehashOut.fuelOut
  | fuel + 1, j, qq, errs =>
    if h : j < qq.length then
      let it := qq.get ⟨j, h⟩
      let qq1 := if it.conn = conn then qq.eraseIdx j else qq
      let errs1 := if it.conn = conn then errs ++ [it.qid] else errs
      rehashFailLoopF conn fuel (if j = 0 then U32 - 1 else j - 1) qq1 errs1
    else RehashOut.oobRead j errs qq

/-- The whole withdrawal loop for one removed connection, started at
`j = (unsigned int)(qq.size() - 1)` (which is `U32 - 1` when the queue is
empty). -/
def rehashFailLoop (conn : Nat) (qq : List QQueueItem) : RehashOut :=
  rehashFailLoopF conn (qq.length + 2) ((qq.length + U32 - 1) % U32) qq []

/-- C2: the claim says withdrawing a connection with N queued jobs fails
exactly those N jobs in submission order and then returns. Evaluating the
loop of `ModuleSQL::OnRehash`: with two queued jobs (qids 1 then 2) both
targeting connection 7, the jobs are failed in REVERSE order [2, 1], and
because the unsigned index `j` satisfies `j >= 0` forever, the loop then
wraps `j` to 4294967295 and reads `qq[4294967295]` of the now-empty deque
(out of bounds). With zero queued jobs the very first read
`qq[(unsigned)(0 - 1)]` is already out of bounds. -/
theorem c2_rehash_loop_oob :
    rehashFailLoop 7 [⟨1, 7⟩, ⟨2, 7⟩]
      = RehashOut.oobRead 4294967295 [2, 1] [] ∧
    rehashFailLoop 7 [] = RehashOut.oobRead 4294967295 [] [] := by
  exact ⟨rfl, rfl⟩

/-- Outcome of the post-query step of `DispatcherThread::Run`. -/
inductive WorkerStep where
  | posted (qq : List QQueueItem) (rq : List RQueueItem) (notified : Bool)
  | discarded (qq : List QQueueItem) (rq : List RQueueItem)
  | uBEmptyFront
deriving DecidableEq

/-- The step `DispatcherThread::Run` performs after `DoBlockingQuery`
returns, as a function of the queue contents observed once the worker has
re-acquired the queue lock: `if (Parent->qq.front().q == i.q)` then pop the
job, append the result to `rq` and `NotifyParent()`; otherwise delete the
result ("UnloadModule ate the query"). `qq.front()` on an empty deque is
undefined behaviour, returned as `uBEmptyFront`. -/
def workerComplete (qq : List QQueueItem) (rq : List RQueueItem)
    (i : QQueueItem) (res : RQueueItem) : WorkerStep :=
  match qq with
  | [] => WorkerStep.uBEmptyFront
  | front :: rest =>
    if front.qid = i.qid then WorkerStep.posted rest (rq ++ [res]) true
    else WorkerStep.discarded (front :: rest) rq

/-- C5: the claim says a processed job yields exactly one posted result
unless teardown removed the job while in flight, in which case the result
is discarded. The first two conjuncts evaluate the intended paths: when the
in-flight job is still at the front, it is popped and exactly one result is
appended and notified; when another job is at the front (teardown removed
the in-flight one), the result is discarded and nothing is posted. The
third conjunct is the divergence: when teardown removed the in-flight job
and it was the ONLY queued job, the recheck `Parent->qq.front()` reads the
front of an empty deque (undefined behaviour) instead of discarding. -/
theorem c5_worker_step :
    workerComplete [⟨1, 0⟩] [] ⟨1, 0⟩ ⟨1, 0⟩
      = WorkerStep.posted [] [⟨1, 0⟩] true ∧
    workerComplete [⟨2, 0⟩] [] ⟨1, 0⟩ ⟨1, 0⟩
      = WorkerStep.discarded [⟨2, 0⟩] [] ∧
    workerComplete [] [] ⟨1, 0⟩ ⟨1, 0⟩ = WorkerStep.uBEmptyFront := by
  exact ⟨rfl, rfl, rfl⟩

/-- One callback made by `DispatcherThread::OnNotify` while draining. -/
inductive Delivery where
  | onResult (qid : Nat)
  | onError (qid : Nat) (errid : Nat)
deriving DecidableEq

/-- The drain loop of `DispatcherThread::OnNotify`: for each result in queue
order, `OnResult` if its error id is `SQL_NO_ERROR`, else `OnError`. -/
def onNotifyLoop : List RQueueItem → List Delivery
  | [] => []
  | it :: rest =>
    (if it.errid = SQL_NO_ERROR then Delivery.onResult it.qid
     else Delivery.onError it.qid it.errid) :: onNotifyLoop rest

/-- `DispatcherThread::OnNotify`: drain the result queue front to back under
the queue lock, then `rq.clear()`. Returns the callback trace and the final
result queue. -/
def OnNotify (rq : List RQueueItem) : List Delivery × List RQueueItem :=
  (onNotifyLoop rq, [])

/-- C6: the notification drain delivers each queued result to its
originating query in queue-append order, invoking `OnError` exactly when
the result carries a failure id and `OnResult` otherwise, and leaves the
result queue empty when it returns. -/
theorem c6_drain (rq : List RQueueItem) :
    (OnNotify rq).2 = [] ∧
    (OnNotify rq).1.length = rq.length ∧
    ∀ (k : Nat) (it : RQueueItem), rq.get? k = some it →
      (OnNotify rq).1.get? k
        = some (if it.errid = SQL_NO_ERROR then Delivery.onResult it.qid
                else Delivery.onError it.qid it.errid) := by
  refine ⟨rfl, ?_, ?_⟩
  · induction rq with
    | nil => rfl
    | cons a l ih => simpa [OnNotify, onNotifyLoop] using ih
  · intro k it
    induction rq generalizing k with
    | nil => simp
    | cons a l ih =>
      cases k with
      | zero => intro h; simp [OnNotify, onNotifyLoop] at h ⊢; simp [h]
      | succ k => intro h; simpa [OnNotify, onNotifyLoop] using ih k h

/-- C6 witness: the drain of a concrete two-element result queue, one
success and one failure, via `c6_drain`. -/
theorem c6_drain_witness :
    (OnNotify [⟨5, 0⟩, ⟨6, 3⟩]).2 = [] ∧
    (OnNotify [⟨5, 0⟩, ⟨6, 3⟩]).1.get? 0 = some (Delivery.onResult 5) ∧
    (OnNotify [⟨5, 0⟩, ⟨6, 3⟩]).1.get? 1 = some (Delivery.onError 6 3) := by
  refine ⟨(c6_drain [⟨5, 0⟩, ⟨6, 3⟩]).1, ?_, ?_⟩
  · exact (c6_drain [⟨5, 0⟩, ⟨6, 3⟩]).2.2 0 ⟨5, 0⟩ rfl
  · exact (c6_drain [⟨5, 0⟩, ⟨6, 3⟩]).2.2 1 ⟨6, 3⟩ rfl

/-- C4 counterexample: a registration whose backend insertion fails
(`kevOk = false`) returns an error but does NOT leave the handle table
unchanged: the handler has already been stored in its slot by the time the
`kevent` call fails, and `AddFd` does not roll it back. -/
theorem c4_cex :
    (AddFd 5 initKQ ⟨0, true, 0⟩ false).1 = false ∧
    initKQ.ref 0 = none ∧
    (AddFd 5 initKQ ⟨0, true, 0⟩ false).2.ref 0 = some ⟨0, true, 0⟩ := by
  exact ⟨rfl, rfl, rfl⟩

/-- C4 as amended: a registration rejected by the bounds check, the
capacity check or the occupied-slot check leaves the state unchanged; a
registration whose backend insertion fails returns an error and leaves the
occupied-slot count and every other slot unchanged, but the handler has
already been stored in its own slot (previously empty) and is not rolled
back; only a successful call reports success, and it stores the handler
and increments the count. -/
theorem c4_amended (maxD : Nat) (s : KQState) (eh : EventHandler)
    (kevOk : Bool) :
    ((AddFd maxD s eh kevOk).1 = true →
      kevOk = true ∧ s.ref eh.fd = none ∧
      (AddFd maxD s eh kevOk).2.ref eh.fd = some eh ∧
      (AddFd maxD s eh kevOk).2.CurrentSetSize = s.CurrentSetSize + 1) ∧
    ((AddFd maxD s eh kevOk).1 = false →
      (AddFd maxD s eh kevOk).2.CurrentSetSize = s.CurrentSetSize ∧
      ((AddFd maxD s eh kevOk).2 = s ∨
        (kevOk = false ∧ s.ref eh.fd = none ∧
         (AddFd maxD s eh kevOk).2.ref eh.fd = some eh ∧
         (AddFd maxD s eh kevOk).2.kern = s.kern ∧
         ∀ j : Int, j ≠ eh.fd →
           (AddFd maxD s eh kevOk).2.ref j = s.ref j))) := by
  unfold AddFd
  split
  · exact ⟨fun h => by simp at h, fun _ => ⟨rfl, Or.inl rfl⟩⟩
  · split
    · exact ⟨fun h => by simp at h, fun _ => ⟨rfl, Or.inl rfl⟩⟩
    · split
      · exact ⟨fun h => by simp at h, fun _ => ⟨rfl, Or.inl rfl⟩⟩
      · rename_i hocc
        have hnone : s.ref eh.fd = none := by
          cases h : s.ref eh.fd with
          | none => rfl
          | some a => rw [h] at hocc; simp at hocc
        split
        · rename_i hok
          refine ⟨fun _ => ⟨hok, hnone, by simp [tset], rfl⟩, fun h => by simp at h⟩
        · rename_i hok
          have hk : kevOk = false := by
            cases kevOk
            · rfl
            · exact absurd rfl hok
          refine ⟨fun h => by simp at h, fun _ => ⟨rfl, Or.inr ?_⟩⟩
          exact ⟨hk, hnone, by simp [tset], rfl,
                 fun j hj => by simp [tset, hj]⟩

/-- C4 amended witness: a successful registration of fd 0 on the fresh
engine increments the count by one, and the same registration with a
failing backend insertion leaves the count unchanged, both via
`c4_amended`. -/
theorem c4_amended_witness :
    (AddFd 5 initKQ ⟨0, true, 0⟩ true).2.CurrentSetSize
      = initKQ.CurrentSetSize + 1 ∧
    (AddFd 5 initKQ ⟨0, true, 0⟩ false).2.CurrentSetSize
      = initKQ.CurrentSetSize := by
  exact ⟨((c4_amended 5 initKQ ⟨0, true, 0⟩ true).1 rfl).2.2.2,
         ((c4_amended 5 initKQ ⟨0, true, 0⟩ false).2 rfl).1⟩

/-- One registration or unregistration call, with the backend syscall
outcome it encounters. -/
inductive EngOp where
  | add (eh : EventHandler) (kevOk : Bool)
  | del (eh : EventHandler) (kevOk : Bool)

/-- Apply one operation to the engine state. -/
def applyOp (maxD : Nat) (s : KQState) : EngOp → Bool × KQState
  | EngOp.add eh ok => AddFd maxD s eh ok
  | EngOp.del eh ok => DelFd maxD s eh ok

/-- Discriminates registrations from unregistrations. -/
def isAdd : EngOp → Bool
  | EngOp.add _ _ => true
  | EngOp.del _ _ => false

/-- Run a sequence of operations, also counting the successful
registrations and the successful unregistrations. -/
def runCount (maxD : Nat) (s : KQState) : List EngOp → KQState × Int × Int
  | [] => (s, 0, 0)
  | op :: rest =>
    ((runCount maxD (applyOp maxD s op).2 rest).1,
     (runCount maxD (applyOp maxD s op).2 rest).2.1
       + (if (applyOp maxD s op).1 && isAdd op then 1 else 0),
     (runCount maxD (applyOp maxD s op).2 rest).2.2
       + (if (applyOp maxD s op).1 && !(isAdd op) then 1 else 0))

/-- Number of non-empty slots of the handle table over the index range the
bounds check admits (0 through `MAX_DESCRIPTORS`). -/
def countOccupied (maxD : Nat) (s : KQState) : Nat :=
  List.countP (fun n : Nat => (s.ref (n : Int)).isSome) (List.range (maxD + 1))

/-- True when every registration operation of the sequence has a
successful backend insertion. -/
def addsAllOk : List EngOp → Bool
  | [] => true
  | EngOp.add _ ok :: rest => ok && addsAllOk rest
  | EngOp.del _ _ :: rest => addsAllOk rest

/-- A false bounds test puts the descriptor in `[0, MAX_DESCRIPTORS]`. -/
theorem fdInRange {maxD : Nat} {fd : Int}
    (h : fdOutOfRange maxD fd = false) : 0 ≤ fd ∧ fd ≤ (maxD : Int) := by
  simp [fdOutOfRange] at h
  omega

/-- Count change per operation: a successful registration adds one, a
successful unregistration subtracts one, a failed operation leaves
`CurrentSetSize` unchanged. -/
theorem applyOp_size (maxD : Nat) (s : KQState) (op : EngOp) :
    (applyOp maxD s op).2.CurrentSetSize
      = s.CurrentSetSize
        + (if (applyOp maxD s op).1 then (if isAdd op then 1 else -1)
           else 0) := by
  cases op with
  | add eh ok =>
    simp only [applyOp, isAdd, AddFd]
    split
    · simp
    · split
      · simp
      · split
        · simp
        · split
          · simp
          · simp
  | del eh ok =>
    simp only [applyOp, isAdd, DelFd]
    split
    · simp
    · split
      · simp; omega
      · simp

/-- The occupied-slot count after a run equals the starting count plus
successful registrations minus successful unregistrations. -/
theorem runCount_size (maxD : Nat) (ops : List EngOp) :
    ∀ s : KQState,
      (runCount maxD s ops).1.CurrentSetSize
        = s.CurrentSetSize + (runCount maxD s ops).2.1
            - (runCount maxD s ops).2.2 := by
  induction ops with
  | nil => intro s; simp [runCount]
  | cons op rest ih =>
    intro s
    have h := applyOp_size maxD s op
    have h2 := ih (applyOp maxD s op).2
    simp only [runCount]
    cases hb : (applyOp maxD s op).1 <;>
      cases ha : isAdd op <;> simp [hb, ha] at h h2 ⊢ <;> omega

/-- Counting with pointwise-equal predicates agrees. -/
theorem countP_eq_of_agree {p q : Nat → Bool} :
    ∀ l : List Nat, (∀ x ∈ l, q x = p x) →
      List.countP q l = List.countP p l := by
  intro l
  induction l with
  | nil => intro _; rfl
  | cons a t ih =>
    intro h
    have ha := h a (by simp)
    have ht := ih (fun x hx => h x (by simp [hx]))
    simp [List.countP_cons, ha, ht]

/-- Flipping one index of a nodup list from unsatisfied to satisfied raises
the count by one. -/
theorem countP_flip_true {p q : Nat → Bool} {m : Nat} :
    ∀ l : List Nat, l.Nodup → m ∈ l → p m = false → q m = true →
      (∀ x, x ≠ m → q x = p x) →
      List.countP q l = List.countP p l + 1 := by
  intro l
  induction l with
  | nil => intro _ hm; cases hm
  | cons a t ih =>
    intro hnd hm hpm hqm hoff
    rcases List.mem_cons.mp hm with h | hmt
    · subst h
      have hat : m ∉ t := (List.nodup_cons.mp hnd).1
      have ht : List.countP q t = List.countP p t :=
        countP_eq_of_agree t (fun x hx => hoff x (fun hxm => hat (hxm ▸ hx)))
      simp [List.countP_cons, hpm, hqm, ht]
    · have hnd1 := (List.nodup_cons.mp hnd).2
      have ham : a ≠ m := fun h => (List.nodup_cons.mp hnd).1 (h ▸ hmt)
      have ht := ih hnd1 hmt hpm hqm hoff
      cases hpa : p a <;>
        simp [List.countP_cons, hoff a ham, ht, hpa]

/-- Flipping one index of a nodup list from satisfied to unsatisfied lowers
the count by one. -/
theorem countP_flip_false {p q : Nat → Bool} {m : Nat} :
    ∀ l : List Nat, l.Nodup → m ∈ l → p m = true → q m = false →
      (∀ x, x ≠ m → q x = p x) →
      List.countP p l = List.countP q l + 1 := by
  intro l hnd hm hpm hqm hoff
  exact countP_flip_true l hnd hm hqm hpm (fun x hx => (hoff x hx).symm)

/-- The filter of the direction opposite to the one a handler registers. -/
def ehOther (eh : EventHandler) : Int :=
  if eh.readable then EVFILT_WRITE else EVFILT_READ

/-- Consistency of handle table and kernel interest set maintained by
`AddFd`/`DelFd` when every backend insertion succeeds: an empty slot has no
kernel interest, an occupied slot has interest exactly on the handler's
own filter. -/
def kernMatches (s : KQState) : Prop :=
  ∀ fd : Int,
    (s.ref fd = none →
      s.kern fd EVFILT_READ = none ∧ s.kern fd EVFILT_WRITE = none) ∧
    (∀ eh, s.ref fd = some eh →
      (s.kern fd (ehFilt eh)).isSome = true ∧ s.kern fd (ehOther eh) = none)

/-- The engine invariant tying the non-empty-slot count to
`CurrentSetSize`. -/
def tableInv (maxD : Nat) (s : KQState) : Prop :=
  kernMatches s ∧ (countOccupied maxD s : Int) = s.CurrentSetSize

/-- The fresh engine satisfies the invariant. -/
theorem tableInv_init (maxD : Nat) : tableInv maxD initKQ := by
  refine ⟨fun fd => ⟨fun _ => ⟨rfl, rfl⟩, fun eh h => by simp [initKQ] at h⟩, ?_⟩
  have h0 : countOccupied maxD initKQ = 0 := by
    apply List.countP_eq_zero.mpr
    intro a _
    simp [initKQ]
  rw [h0]
  rfl

/-- The state a successful `AddFd` produces. -/
theorem AddFd_success_state (maxD : Nat) (s : KQState) (eh : EventHandler)
    (hr : fdOutOfRange maxD eh.fd = false)
    (hc : ¬ GetRemainingFds maxD s ≤ 1)
    (ho : s.ref eh.fd = none) :
    AddFd maxD s eh true
      = (true, { ref := tset s.ref eh.fd (some eh),
                 CurrentSetSize := s.CurrentSetSize + 1,
                 kern := kadd s.kern eh.fd (ehFilt eh) false }) := by
  simp [AddFd, hr, hc, ho]

/-- The state a successful `DelFd` produces. -/
theorem DelFd_success_state (maxD : Nat) (s : KQState) (eh : EventHandler)
    (ok : Bool) (hr : fdOutOfRange maxD eh.fd = false)
    (hk : (ok && (s.kern eh.fd (ehFilt eh)).isSome) = true) :
    DelFd maxD s eh ok
      = (true, { ref := tset s.ref eh.fd none,
                 CurrentSetSize := s.CurrentSetSize - 1,
                 kern := kdel s.kern eh.fd (ehFilt eh) }) := by
  simp [DelFd, hr, hk]

/-- Updating a slot changes that slot. -/
theorem tset_self (t : RefTable) (fd : Int) (v : Option EventHandler) :
    tset t fd v fd = v := by
  simp [tset]

/-- Updating a slot leaves other slots alone. -/
theorem tset_other (t : RefTable) (fd j : Int) (v : Option EventHandler)
    (h : j ≠ fd) : tset t fd v j = t j := by
  simp [tset, h]

/-- A kernel add registers the given interest. -/
theorem kadd_self (k : Kern) (fd filt : Int) (osh : Bool) :
    kadd k fd filt osh fd filt = some osh := by
  simp [kadd]

/-- A kernel add leaves other interests alone. -/
theorem kadd_ne (k : Kern) (fd filt : Int) (osh : Bool) (a b : Int)
    (h : ¬(a = fd ∧ b = filt)) : kadd k fd filt osh a b = k a b := by
  simp only [kadd]
  rw [if_neg h]

/-- A kernel delete removes the given interest. -/
theorem kdel_self (k : Kern) (fd filt : Int) :
    kdel k fd filt fd filt = none := by
  simp [kdel]

/-- A kernel delete leaves other interests alone. -/
theorem kdel_ne (k : Kern) (fd filt : Int) (a b : Int)
    (h : ¬(a = fd ∧ b = filt)) : kdel k fd filt a b = k a b := by
  simp only [kdel]
  rw [if_neg h]

/-- A handler's own filter differs from the opposite one. -/
theorem ehFilt_ne_ehOther (eh : EventHandler) : ehFilt eh ≠ ehOther eh := by
  cases h : eh.readable <;>
    simp [ehFilt, ehOther, h, EVFILT_READ, EVFILT_WRITE]

/-- A filter value that is not a handler's own filter is the opposite one. -/
theorem filt_other (x : Int) (eh : EventHandler)
    (hx : x = EVFILT_READ ∨ x = EVFILT_WRITE) (hne : x ≠ ehFilt eh) :
    x = ehOther eh := by
  cases h : eh.readable <;> rcases hx with h1 | h1 <;>
    simp [ehFilt, ehOther, h, h1, EVFILT_READ, EVFILT_WRITE] at hne ⊢

/-- A handler's own filter is one of the two filter values. -/
theorem ehFilt_or (eh : EventHandler) :
    ehFilt eh = EVFILT_READ ∨ ehFilt eh = EVFILT_WRITE := by
  cases h : eh.readable <;> simp [ehFilt, h]

/-- Table/kernel consistency after a successful registration. -/
theorem kernMatches_add (s : KQState) (eh : EventHandler)
    (hkm : kernMatches s) (ho : s.ref eh.fd = none) :
    ∀ fd : Int,
      (tset s.ref eh.fd (some eh) fd = none →
        kadd s.kern eh.fd (ehFilt eh) false fd EVFILT_READ = none ∧
        kadd s.kern eh.fd (ehFilt eh) false fd EVFILT_WRITE = none) ∧
      (∀ eh1, tset s.ref eh.fd (some eh) fd = some eh1 →
        (kadd s.kern eh.fd (ehFilt eh) false fd (ehFilt eh1)).isSome = true ∧
        kadd s.kern eh.fd (ehFilt eh) false fd (ehOther eh1) = none) := by
  intro fd
  by_cases hfd : fd = eh.fd
  · subst hfd
    constructor
    · intro hnone
      rw [tset_self] at hnone
      exact absurd hnone (by simp)
    · intro eh1 heh1
      rw [tset_self] at heh1
      obtain rfl : eh = eh1 := Option.some.inj heh1
      have hbase := (hkm eh.fd).1 ho
      constructor
      · rw [kadd_self]
        rfl
      · rw [kadd_ne]
        · cases h1 : eh.readable
          · have hE : ehOther eh = EVFILT_READ := by simp [ehOther, h1]
            rw [hE]
            exact hbase.1
          · have hE : ehOther eh = EVFILT_WRITE := by simp [ehOther, h1]
            rw [hE]
            exact hbase.2
        · exact fun hc => ehFilt_ne_ehOther eh hc.2.symm
  · constructor
    · intro hnone
      rw [tset_other _ _ _ _ hfd] at hnone
      have hbase := (hkm fd).1 hnone
      constructor
      · rw [kadd_ne]
        · exact hbase.1
        · exact fun hc => hfd hc.1
      · rw [kadd_ne]
        · exact hbase.2
        · exact fun hc => hfd hc.1
    · intro eh1 heh1
      rw [tset_other _ _ _ _ hfd] at heh1
      have hbase := (hkm fd).2 eh1 heh1
      constructor
      · rw [kadd_ne]
        · exact hbase.1
        · exact fun hc => hfd hc.1
      · rw [kadd_ne]
        · exact hbase.2
        · exact fun hc => hfd hc.1

/-- Table/kernel consistency after a successful unregistration. -/
theorem kernMatches_del (s : KQState) (eh eh0 : EventHandler)
    (hkm : kernMatches s) (ho : s.ref eh.fd = some eh0)
    (hsame : ehFilt eh = ehFilt eh0) :
    ∀ fd : Int,
      (tset s.ref eh.fd none fd = none →
        kdel s.kern eh.fd (ehFilt eh) fd EVFILT_READ = none ∧
        kdel s.kern eh.fd (ehFilt eh) fd EVFILT_WRITE = none) ∧
      (∀ eh1, tset s.ref eh.fd none fd = some eh1 →
        (kdel s.kern eh.fd (ehFilt eh) fd (ehFilt eh1)).isSome = true ∧
        kdel s.kern eh.fd (ehFilt eh) fd (ehOther eh1) = none) := by
  intro fd
  by_cases hfd : fd = eh.fd
  · subst hfd
    have hocc := (hkm eh.fd).2 eh0 ho
    constructor
    · intro _
      constructor
      · by_cases hx : EVFILT_READ = ehFilt eh
        · rw [hx]
          exact kdel_self s.kern eh.fd (ehFilt eh)
        · rw [kdel_ne]
          · have hE : EVFILT_READ = ehOther eh0 :=
              filt_other EVFILT_READ eh0 (Or.inl rfl)
                (fun hc => hx (by rw [hsame]; exact hc))
            rw [hE]
            exact hocc.2
          · exact fun hc => hx hc.2
      · by_cases hx : EVFILT_WRITE = ehFilt eh
        · rw [hx]
          exact kdel_self s.kern eh.fd (ehFilt eh)
        · rw [kdel_ne]
          · have hE : EVFILT_WRITE = ehOther eh0 :=
              filt_other EVFILT_WRITE eh0 (Or.inr rfl)
                (fun hc => hx (by rw [hsame]; exact hc))
            rw [hE]
            exact hocc.2
          · exact fun hc => hx hc.2
    · intro eh1 heh1
      rw [tset_self] at heh1
      exact absurd heh1 (by simp)
  · constructor
    · intro hnone
      rw [tset_other _ _ _ _ hfd] at hnone
      have hbase := (hkm fd).1 hnone
      constructor
      · rw [kdel_ne]
        · exact hbase.1
        · exact fun hc => hfd hc.1
      · rw [kdel_ne]
        · exact hbase.2
        · exact fun hc => hfd hc.1
    · intro eh1 heh1
      rw [tset_other _ _ _ _ hfd] at heh1
      have hbase := (hkm fd).2 eh1 heh1
      constructor
      · rw [kdel_ne]
        · exact hbase.1
        · exact fun hc => hfd hc.1
      · rw [kdel_ne]
        · exact hbase.2
        · exact fun hc => hfd hc.1

/-- Slot count after storing a handler into an in-range empty slot. -/
theorem countOccupied_tset_some (maxD : Nat) (s : KQState)
    (eh : EventHandler) (hfd0 : 0 ≤ eh.fd) (hfdle : eh.fd ≤ (maxD : Int))
    (ho : s.ref eh.fd = none) :
    List.countP (fun n : Nat => (tset s.ref eh.fd (some eh) (n : Int)).isSome)
        (List.range (maxD + 1))
      = List.countP (fun n : Nat => (s.ref (n : Int)).isSome)
          (List.range (maxD + 1)) + 1 := by
  have hcast : ((eh.fd.toNat : Nat) : Int) = eh.fd := Int.toNat_of_nonneg hfd0
  have hm : eh.fd.toNat ∈ List.range (maxD + 1) := by
    rw [List.mem_range]
    omega
  apply countP_flip_true (List.range (maxD + 1)) (List.nodup_range _) hm
  · show (s.ref ((eh.fd.toNat : Nat) : Int)).isSome = false
    rw [hcast, ho]
    rfl
  · show (tset s.ref eh.fd (some eh) ((eh.fd.toNat : Nat) : Int)).isSome = true
    rw [hcast, tset_self]
    rfl
  · intro x hx
    show (tset s.ref eh.fd (some eh) (x : Int)).isSome
        = (s.ref (x : Int)).isSome
    rw [tset_other]
    intro hc
    apply hx
    have hc2 : ((x : Nat) : Int) = ((eh.fd.toNat : Nat) : Int) := by
      rw [hcast]
      exact hc
    exact_mod_cast hc2

/-- Slot count after clearing an in-range occupied slot. -/
theorem countOccupied_tset_none (maxD : Nat) (s : KQState)
    (eh eh0 : EventHandler) (hfd0 : 0 ≤ eh.fd)
    (hfdle : eh.fd ≤ (maxD : Int)) (ho : s.ref eh.fd = some eh0) :
    List.countP (fun n : Nat => (s.ref (n : Int)).isSome)
        (List.range (maxD + 1))
      = List.countP (fun n : Nat => (tset s.ref eh.fd none (n : Int)).isSome)
          (List.range (maxD + 1)) + 1 := by
  have hcast : ((eh.fd.toNat : Nat) : Int) = eh.fd := Int.toNat_of_nonneg hfd0
  have hm : eh.fd.toNat ∈ List.range (maxD + 1) := by
    rw [List.mem_range]
    omega
  apply countP_flip_false (List.range (maxD + 1)) (List.nodup_range _) hm
  · show (s.ref ((eh.fd.toNat : Nat) : Int)).isSome = true
    rw [hcast, ho]
    rfl
  · show (tset s.ref eh.fd none ((eh.fd.toNat : Nat) : Int)).isSome = false
    rw [hcast, tset_self]
    rfl
  · intro x hx
    show (tset s.ref eh.fd none (x : Int)).isSome = (s.ref (x : Int)).isSome
    rw [tset_other]
    intro hc
    apply hx
    have hc2 : ((x : Nat) : Int) = ((eh.fd.toNat : Nat) : Int) := by
      rw [hcast]
      exact hc
    exact_mod_cast hc2

/-- A registration whose backend insertion succeeds preserves the engine
invariant. -/
theorem AddFd_inv (maxD : Nat) (s : KQState) (eh : EventHandler)
    (hinv : tableInv maxD s) : tableInv maxD (AddFd maxD s eh true).2 := by
  obtain ⟨hkm, hcnt⟩ := hinv
  by_cases hr : fdOutOfRange maxD eh.fd = true
  · simp only [AddFd, hr, if_true]
    exact ⟨hkm, hcnt⟩
  · replace hr : fdOutOfRange maxD eh.fd = false := by
      cases h : fdOutOfRange maxD eh.fd
      · rfl
      · exact absurd h hr
    by_cases hc : GetRemainingFds maxD s ≤ 1
    · have hres : AddFd maxD s eh true = (false, s) := by
        simp [AddFd, hr, hc]
      rw [hres]
      exact ⟨hkm, hcnt⟩
    · cases ho : s.ref eh.fd with
      | some a =>
        have hres : AddFd maxD s eh true = (false, s) := by
          simp [AddFd, hr, hc, ho]
        rw [hres]
        exact ⟨hkm, hcnt⟩
      | none =>
        obtain ⟨hfd0, hfdle⟩ := fdInRange hr
        rw [AddFd_success_state maxD s eh hr hc ho]
        refine ⟨kernMatches_add s eh hkm ho, ?_⟩
        show (List.countP
            (fun n : Nat => (tset s.ref eh.fd (some eh) (n : Int)).isSome)
            (List.range (maxD + 1)) : Int) = s.CurrentSetSize + 1
        rw [countOccupied_tset_some maxD s eh hfd0 hfdle ho]
        simp only [countOccupied] at hcnt
        push_cast
        omega

/-- An unregistration call (successful or not) preserves the engine
invariant. -/
theorem DelFd_inv (maxD : Nat) (s : KQState) (eh : EventHandler) (ok : Bool)
    (hinv : tableInv maxD s) : tableInv maxD (DelFd maxD s eh ok).2 := by
  obtain ⟨hkm, hcnt⟩ := hinv
  by_cases hr : fdOutOfRange maxD eh.fd = true
  · simp only [DelFd, hr, if_true]
    exact ⟨hkm, hcnt⟩
  · replace hr : fdOutOfRange maxD eh.fd = false := by
      cases h : fdOutOfRange maxD eh.fd
      · rfl
      · exact absurd h hr
    by_cases hk : (ok && (s.kern eh.fd (ehFilt eh)).isSome) = true
    · obtain ⟨hok, hks⟩ : ok = true ∧ (s.kern eh.fd (ehFilt eh)).isSome = true := by
        simpa using hk
      obtain ⟨hfd0, hfdle⟩ := fdInRange hr
      cases ho : s.ref eh.fd with
      | none =>
        exfalso
        have hb := (hkm eh.fd).1 ho
        rcases ehFilt_or eh with hf | hf <;> rw [hf] at hks
        · rw [hb.1] at hks
          exact absurd hks (by simp)
        · rw [hb.2] at hks
          exact absurd hks (by simp)
      | some eh0 =>
        have hocc := (hkm eh.fd).2 eh0 ho
        have hsame : ehFilt eh = ehFilt eh0 := by
          by_cases hf : ehFilt eh = ehFilt eh0
          · exact hf
          · exfalso
            have hoth : ehFilt eh = ehOther eh0 :=
              filt_other (ehFilt eh) eh0 (ehFilt_or eh) hf
            rw [hoth, hocc.2] at hks
            exact absurd hks (by simp)
        rw [DelFd_success_state maxD s eh ok hr hk]
        refine ⟨kernMatches_del s eh eh0 hkm ho hsame, ?_⟩
        show (List.countP
            (fun n : Nat => (tset s.ref eh.fd none (n : Int)).isSome)
            (List.range (maxD + 1)) : Int) = s.CurrentSetSize - 1
        have hdrop := countOccupied_tset_none maxD s eh eh0 hfd0 hfdle ho
        simp only [countOccupied] at hcnt
        omega
    · have hres : DelFd maxD s eh ok = (false, s) := by
        simp only [DelFd]
        rw [if_neg, if_neg hk]
        · rw [hr]
          simp
      rw [hres]
      exact ⟨hkm, hcnt⟩

/-- Running any operation sequence whose registrations all have successful
backend insertions preserves the engine invariant. -/
theorem runCount_inv (maxD : Nat) (ops : List EngOp) :
    ∀ s : KQState, tableInv maxD s → addsAllOk ops = true →
      tableInv maxD (runCount maxD s ops).1 := by
  induction ops with
  | nil => exact fun s h _ => h
  | cons op rest ih =>
    intro s h hall
    cases op with
    | add eh ok =>
      obtain ⟨hok1, hok2⟩ : ok = true ∧ addsAllOk rest = true := by
        simpa [addsAllOk, Bool.and_eq_true] using hall
      subst hok1
      simp only [runCount, applyOp]
      exact ih _ (AddFd_inv maxD s eh h) hok2
    | del eh ok =>
      simp only [runCount, applyOp]
      exact ih _ (DelFd_inv maxD s eh ok h) (by simpa [addsAllOk] using hall)

/-- C8 counterexample: one registration whose backend insertion fails is a
sequence of register/unregister operations that stays within capacity,
after which `CurrentSetSize` is 0 while the table holds 1 non-empty slot
(the slot was stored before the failed `kevent` call and never rolled
back), so the count does not equal the number of non-empty slots. -/
theorem c8_cex :
    (runCount 5 initKQ [EngOp.add ⟨0, true, 0⟩ false]).1.CurrentSetSize = 0 ∧
    countOccupied 5 (runCount 5 initKQ [EngOp.add ⟨0, true, 0⟩ false]).1
      = 1 := by
  exact ⟨rfl, rfl⟩

/-- C8 as amended: for every sequence of register/unregister operations,
`CurrentSetSize` equals the number of successful registrations minus the
number of successful unregistrations; and it additionally equals the
number of non-empty slots of the handle table provided every registration
of the sequence had a successful backend insertion. -/
theorem c8_amended (maxD : Nat) (ops : List EngOp) :
    (runCount maxD initKQ ops).1.CurrentSetSize
      = (runCount maxD initKQ ops).2.1 - (runCount maxD initKQ ops).2.2 ∧
    (addsAllOk ops = true →
      (countOccupied maxD (runCount maxD initKQ ops).1 : Int)
        = (runCount maxD initKQ ops).1.CurrentSetSize) := by
  constructor
  · have h := runCount_size maxD ops initKQ
    have h0 : initKQ.CurrentSetSize = 0 := rfl
    omega
  · intro hall
    exact (runCount_inv maxD ops initKQ (tableInv_init maxD) hall).2

/-- C8 amended witness: the amended claim evaluated via `c8_amended` on a
concrete register-register-unregister sequence with all backend
insertions successful. -/
theorem c8_amended_witness :
    (runCount 5 initKQ
        [EngOp.add ⟨0, true, 0⟩ true, EngOp.add ⟨1, true, 1⟩ true,
         EngOp.del ⟨0, true, 0⟩ true]).1.CurrentSetSize
      = (runCount 5 initKQ
          [EngOp.add ⟨0, true, 0⟩ true, EngOp.add ⟨1, true, 1⟩ true,
           EngOp.del ⟨0, true, 0⟩ true]).2.1
        - (runCount 5 initKQ
            [EngOp.add ⟨0, true, 0⟩ true, EngOp.add ⟨1, true, 1⟩ true,
             EngOp.del ⟨0, true, 0⟩ true]).2.2 ∧
    (countOccupied 5 (runCount 5 initKQ
        [EngOp.add ⟨0, true, 0⟩ true, EngOp.add ⟨1, true, 1⟩ true,
         EngOp.del ⟨0, true, 0⟩ true]).1 : Int)
      = (runCount 5 initKQ
          [EngOp.add ⟨0, true, 0⟩ true, EngOp.add ⟨1, true, 1⟩ true,
           EngOp.del ⟨0, true, 0⟩ true]).1.CurrentSetSize := by
  exact ⟨(c8_amended 5 _).1, (c8_amended 5 _).2 rfl⟩

/-- One operation keeps `CurrentSetSize` at most one below capacity: a
registration only succeeds with at least two slots remaining. -/
theorem applyOp_size_le (maxD : Nat) (s : KQState) (op : EngOp)
    (h : s.CurrentSetSize ≤ (maxD : Int) - 1) :
    (applyOp maxD s op).2.CurrentSetSize ≤ (maxD : Int) - 1 := by
  cases op with
  | add eh ok =>
    simp only [applyOp, AddFd]
    split
    · exact h
    · split
      · exact h
      · split
        · exact h
        · rename_i hcap _
          simp only [GetRemainingFds, not_le] at hcap
          split
          · simp only []
            omega
          · exact h
  | del eh ok =>
    simp only [applyOp, DelFd]
    split
    · exact h
    · split
      · simp only []
        omega
      · exact h

/-- Running any operation sequence keeps the count at most one below
capacity. -/
theorem runCount_size_le (maxD : Nat) (ops : List EngOp) :
    ∀ s : KQState, s.CurrentSetSize ≤ (maxD : Int) - 1 →
      (runCount maxD s ops).1.CurrentSetSize ≤ (maxD : Int) - 1 := by
  induction ops with
  | nil => exact fun s h => h
  | cons op rest ih =>
    intro s h
    simp only [runCount]
    exact ih _ (applyOp_size_le maxD s op h)

/-- C9: the registration bounds check rejects exactly the identifiers that
are negative or strictly greater than `MAX_DESCRIPTORS`, so the identifier
equal to `MAX_DESCRIPTORS` passes it; registration is refused whenever
`GetRemainingFds() <= 1`, i.e. with fewer than two slots free; hence along
any operation sequence from the fresh engine, `CurrentSetSize` never
exceeds `MAX_DESCRIPTORS - 1`. -/
theorem c9_bounds (maxD : Nat) (hmax : 1 ≤ maxD) :
    (∀ fd : Int, fdOutOfRange maxD fd = true ↔ (fd < 0 ∨ (maxD : Int) < fd)) ∧
    fdOutOfRange maxD (maxD : Int) = false ∧
    (∀ (s : KQState) (eh : EventHandler) (ok : Bool),
      GetRemainingFds maxD s ≤ 1 → (AddFd maxD s eh ok).1 = false) ∧
    (∀ ops : List EngOp,
      (runCount maxD initKQ ops).1.CurrentSetSize ≤ (maxD : Int) - 1) := by
  refine ⟨?_, ?_, ?_, ?_⟩
  · intro fd
    simp [fdOutOfRange]
  · simp [fdOutOfRange]
  · intro s eh ok h
    simp [AddFd, h]
  · intro ops
    apply runCount_size_le maxD ops initKQ
    have h0 : initKQ.CurrentSetSize = 0 := rfl
    omega

/-- C9 witness: via `c9_bounds` at capacity 5, the boundary identifier 5
passes the bounds check, a registration with one slot remaining is
refused, and after two successful registrations the count (2) is at most
4. -/
theorem c9_bounds_witness :
    fdOutOfRange 5 (5 : Int) = false ∧
    (AddFd 5 { ref := fun _ => none, CurrentSetSize := 4,
               kern := fun _ _ => none } ⟨0, true, 0⟩ true).1 = false ∧
    (runCount 5 initKQ
        [EngOp.add ⟨0, true, 0⟩ true,
         EngOp.add ⟨1, true, 1⟩ true]).1.CurrentSetSize ≤ (5 : Int) - 1 := by
  refine ⟨(c9_bounds 5 (by decide)).2.1, ?_, ?_⟩
  · exact (c9_bounds 5 (by decide)).2.2.1
      { ref := fun _ => none, CurrentSetSize := 4, kern := fun _ _ => none }
      ⟨0, true, 0⟩ true (by decide)
  · exact (c9_bounds 5 (by decide)).2.2.2
      [EngOp.add ⟨0, true, 0⟩ true, EngOp.add ⟨1, true, 1⟩ true]

/-- Number of readiness events for a given descriptor and filter in a
batch. -/
def countEv (fd filt : Int) (b : List KEv) : Nat :=
  List.countP (fun e => decide (e.ident = fd) && decide (e.filter = filt)) b

/-- Inversion of a successful single-event delivery. -/
theorem consumeEv_some {k k2 : Kern} {ev : KEv}
    (h : consumeEv k ev = some k2) :
    ∃ osh, k ev.ident ev.filter = some osh ∧
      k2 = (if osh then kdel k ev.ident ev.filter else k) := by
  unfold consumeEv at h
  cases hk : k ev.ident ev.filter with
  | none =>
    rw [hk] at h
    exact absurd h (by simp)
  | some osh =>
    rw [hk] at h
    exact ⟨osh, rfl, (Option.some.inj h).symm⟩

/-- A batch producible from an interest set with no interest on a given
descriptor/filter pair contains no event for that pair, and leaves it
without interest. -/
theorem produceBatch_none (fd filt : Int) :
    ∀ (b : List KEv) (k k1 : Kern), produceBatch k b = some k1 →
      k fd filt = none → countEv fd filt b = 0 ∧ k1 fd filt = none := by
  intro b
  induction b with
  | nil =>
    intro k k1 hp hn
    simp only [produceBatch] at hp
    rw [← Option.some.inj hp]
    exact ⟨rfl, hn⟩
  | cons ev rest ih =>
    intro k k1 hp hn
    simp only [produceBatch] at hp
    cases hc : consumeEv k ev with
    | none =>
      rw [hc] at hp
      exact absurd hp (by simp)
    | some k2 =>
      rw [hc] at hp
      obtain ⟨osh, hk, hk2⟩ := consumeEv_some hc
      have hne : ¬(ev.ident = fd ∧ ev.filter = filt) := by
        intro hcon
        rw [hcon.1, hcon.2, hn] at hk
        exact absurd hk (by simp)
      have hk2n : k2 fd filt = none := by
        rw [hk2]
        cases osh with
        | true =>
          rw [if_pos rfl]
          rw [kdel_ne]
          · exact hn
          · exact fun hc2 => hne ⟨hc2.1.symm, hc2.2.symm⟩
        | false =>
          rw [if_neg (by simp)]
          exact hn
      have hind : (decide (ev.ident = fd) && decide (ev.filter = filt))
          = false := by
        by_cases h1 : ev.ident = fd
        · by_cases h2 : ev.filter = filt
          · exact absurd ⟨h1, h2⟩ hne
          · simp [h2]
        · simp [h1]
      have hrest := ih k2 k1 hp hk2n
      refine ⟨?_, hrest.2⟩
      simp [countEv, List.countP_cons, hind]
      simpa [countEv] using hrest.1

/-- A non-oneshot interest survives the production of any batch. -/
theorem produceBatch_keep (fd filt : Int) :
    ∀ (b : List KEv) (k k1 : Kern), produceBatch k b = some k1 →
      k fd filt = some false → k1 fd filt = some false := by
  intro b
  induction b with
  | nil =>
    intro k k1 hp hn
    simp only [produceBatch] at hp
    rw [← Option.some.inj hp]
    exact hn
  | cons ev rest ih =>
    intro k k1 hp hn
    simp only [produceBatch] at hp
    cases hc : consumeEv k ev with
    | none =>
      rw [hc] at hp
      exact absurd hp (by simp)
    | some k2 =>
      rw [hc] at hp
      obtain ⟨osh, hk, hk2⟩ := consumeEv_some hc
      apply ih k2 k1 hp
      rw [hk2]
      cases osh with
      | true =>
        rw [if_pos rfl]
        by_cases hcon : ev.ident = fd ∧ ev.filter = filt
        · rw [hcon.1, hcon.2, hn] at hk
          exact absurd (Option.some.inj hk) (by simp)
        · rw [kdel_ne]
          · exact hn
          · exact fun hc2 => hcon ⟨hc2.1.symm, hc2.2.symm⟩
      | false =>
        rw [if_neg (by simp)]
        exact hn

/-- A oneshot interest fires at most once in a producible batch; if it
fires, the interest is removed afterwards; if it does not, it remains. -/
theorem produceBatch_oneshot (fd filt : Int) :
    ∀ (b : List KEv) (k k1 : Kern), produceBatch k b = some k1 →
      k fd filt = some true →
      countEv fd filt b ≤ 1 ∧
      (1 ≤ countEv fd filt b → k1 fd filt = none) ∧
      (countEv fd filt b = 0 → k1 fd filt = some true) := by
  intro b
  induction b with
  | nil =>
    intro k k1 hp hn
    simp only [produceBatch] at hp
    rw [← Option.some.inj hp]
    exact ⟨by simp [countEv], by simp [countEv], fun _ => hn⟩
  | cons ev rest ih =>
    intro k k1 hp hn
    simp only [produceBatch] at hp
    cases hc : consumeEv k ev with
    | none =>
      rw [hc] at hp
      exact absurd hp (by simp)
    | some k2 =>
      rw [hc] at hp
      obtain ⟨osh, hk, hk2⟩ := consumeEv_some hc
      by_cases hcon : ev.ident = fd ∧ ev.filter = filt
      · have hosh : osh = true := by
          rw [hcon.1, hcon.2, hn] at hk
          exact (Option.some.inj hk).symm
        have hk2n : k2 fd filt = none := by
          rw [hk2, hosh, if_pos rfl, hcon.1, hcon.2]
          exact kdel_self k fd filt
        have hrest := produceBatch_none fd filt rest k2 k1 hp hk2n
        have hind : (decide (ev.ident = fd) && decide (ev.filter = filt))
            = true := by simp [hcon.1, hcon.2]
        have hcnt : countEv fd filt (ev :: rest) = 1 := by
          simp [countEv, List.countP_cons, hind]
          simpa [countEv] using hrest.1
        rw [hcnt]
        exact ⟨le_refl 1, fun _ => hrest.2, fun h => absurd h (by simp)⟩
      · have hk2n : k2 fd filt = some true := by
          rw [hk2]
          cases osh with
          | true =>
            rw [if_pos rfl]
            rw [kdel_ne]
            · exact hn
            · exact fun hc2 => hcon ⟨hc2.1.symm, hc2.2.symm⟩
          | false =>
            rw [if_neg (by simp)]
            exact hn
        have hind : (decide (ev.ident = fd) && decide (ev.filter = filt))
            = false := by
          by_cases h1 : ev.ident = fd
          · by_cases h2 : ev.filter = filt
            · exact absurd ⟨h1, h2⟩ hcon
            · simp [h2]
          · simp [h1]
        have hrest := ih k2 k1 hp hk2n
        have hcnt : countEv fd filt (ev :: rest) = countEv fd filt rest := by
          simp [countEv, List.countP_cons, hind]
        rw [hcnt]
        exact hrest

/-- C7: with a descriptor registered read-only (non-oneshot read interest,
no write interest), a successful `WantWrite` arms `EVFILT_WRITE` with
`EV_ONESHOT`. In any batch the kernel then produces, a writable event for
that descriptor fires exactly once; afterwards the interest set holds no
write interest for it and still holds the non-oneshot read interest
(read-only again), and a further batch produced without a fresh
`WantWrite` contains no writable event for that descriptor. -/
theorem c7_oneshot_write (st : KQState) (fd : Int) (b1 b2 : List KEv)
    (k1 k2 : Kern)
    (h0w : st.kern fd EVFILT_WRITE = none)
    (h0r : st.kern fd EVFILT_READ = some false)
    (hb1 : produceBatch (WantWrite st fd true).kern b1 = some k1)
    (hfired : 1 ≤ countEv fd EVFILT_WRITE b1)
    (hb2 : produceBatch k1 b2 = some k2) :
    countEv fd EVFILT_WRITE b1 = 1 ∧
    k1 fd EVFILT_WRITE = none ∧
    k1 fd EVFILT_READ = some false ∧
    countEv fd EVFILT_WRITE b2 = 0 := by
  have hwk : (WantWrite st fd true).kern = kadd st.kern fd EVFILT_WRITE true :=
    rfl
  have hw : (WantWrite st fd true).kern fd EVFILT_WRITE = some true := by
    rw [hwk]
    exact kadd_self st.kern fd EVFILT_WRITE true
  have hr : (WantWrite st fd true).kern fd EVFILT_READ = some false := by
    rw [hwk, kadd_ne]
    · exact h0r
    · exact fun hc => absurd hc.2 (by decide)
  have h1 := produceBatch_oneshot fd EVFILT_WRITE b1
    (WantWrite st fd true).kern k1 hb1 hw
  have hcnt1 : countEv fd EVFILT_WRITE b1 = 1 := le_antisymm h1.1 hfired
  have hk1w : k1 fd EVFILT_WRITE = none := h1.2.1 hfired
  have hk1r : k1 fd EVFILT_READ = some false :=
    produceBatch_keep fd EVFILT_READ b1 (WantWrite st fd true).kern k1 hb1 hr
  have h2 := produceBatch_none fd EVFILT_WRITE b2 k1 k2 hb2 hk1w
  exact ⟨hcnt1, hk1w, hk1r, h2.1⟩

/-- A concrete engine state whose kernel interest set holds a non-oneshot
read interest for descriptor 3 and nothing else. -/
def readOnlySt : KQState :=
  { ref := oneTab, CurrentSetSize := 1,
    kern := kadd kern0 3 EVFILT_READ false }

/-- C7 witness: `c7_oneshot_write` applied to the concrete read-only engine
state, a batch with one oneshot write event (flags hold `EV_ONESHOT`,
0x10), and a follow-up batch with one read event. -/
theorem c7_oneshot_write_witness :
    countEv 3 EVFILT_WRITE [⟨3, EVFILT_WRITE, 16⟩] = 1 ∧
    kdel (WantWrite readOnlySt 3 true).kern 3 EVFILT_WRITE
        3 EVFILT_WRITE = none ∧
    kdel (WantWrite readOnlySt 3 true).kern 3 EVFILT_WRITE
        3 EVFILT_READ = some false ∧
    countEv 3 EVFILT_WRITE [⟨3, EVFILT_READ, 0⟩] = 0 := by
  exact c7_oneshot_write readOnlySt
    3 [⟨3, EVFILT_WRITE, 16⟩] [⟨3, EVFILT_READ, 0⟩]
    (kdel (WantWrite readOnlySt 3 true).kern 3 EVFILT_WRITE)
    (kdel (WantWrite readOnlySt 3 true).kern 3 EVFILT_WRITE)
    rfl rfl rfl (by decide) rfl

/-- Outcome of a vector access: the value, or an out-of-bounds read. -/
inductive Access (α : Type) where
  | ok (a : α)
  | oob
deriving DecidableEq

/-- The state of a `MySQLresult`: `SQLerror` id, `currentrow`, `rows`, and
`fieldlists`; one cell (`SQLEntry`) is `Option String`, `none` being the
empty/null entry. -/
structure MySQLresult where
  errid : Nat
  currentrow : Int
  rows : Int
  fieldlists : List (List (Option String))
deriving DecidableEq

/-- C++ `operator[]` with an int index: `none` when the index is outside
the vector. -/
def listGetI {α : Type} (xs : List α) (i : Int) : Option α :=
  if i < 0 then none else xs.get? i.toNat

/-- `MySQLresult::GetValue`: guard
`(row >= 0) && (row < rows) && (column >= 0) && (column < fieldlists[row].size())`
with C short-circuit evaluation (`fieldlists[row]` is only read once the
first three conjuncts hold), then return `fieldlists[row][column]`, else
return the empty `SQLEntry()`. -/
def GetValue (r : MySQLresult) (row column : Int) : Access (Option String) :=
  if 0 ≤ row ∧ row < r.rows then
    if 0 ≤ column then
      match listGetI r.fieldlists row with
      | none => Access.oob
      | some fl =>
        if column < (fl.length : Int) then
          match fl.get? column.toNat with
          | none => Access.oob
          | some v => Access.ok v
        else Access.ok none
    else Access.ok none
  else Access.ok none

/-- `MySQLresult::GetRow`: when `currentrow < rows`, copy
`fieldlists[currentrow]` to the caller, advance `currentrow` and return
true; otherwise clear the caller's vector and return false. -/
def GetRow (r : MySQLresult) :
    Access (Bool × List (Option String)) × MySQLresult :=
  if r.currentrow < r.rows then
    match listGetI r.fieldlists r.currentrow with
    | none => (Access.oob, r)
    | some fl =>
      (Access.ok (true, fl), { r with currentrow := r.currentrow + 1 })
  else (Access.ok (false, []), r)

/-- The result state after a number of successive `GetRow` calls. -/
def rowState (r : MySQLresult) : Nat → MySQLresult
  | 0 => r
  | k + 1 => (GetRow (rowState r k)).2

/-- Outcome of the k-th successive `GetRow` call (counting from 0). -/
def nthGetRow (r : MySQLresult) (k : Nat) :
    Access (Bool × List (Option String)) :=
  (GetRow (rowState r k)).1

/-- The accessor contract in the claim's words: the stored cell when the
row index is within `Rows()` and the column index within that row's
width, the empty entry otherwise. -/
def cellSpec (r : MySQLresult) (row column : Int) : Option String :=
  if 0 ≤ row ∧ row < r.rows ∧ 0 ≤ column ∧
      column < (((r.fieldlists.get? row.toNat).getD []).length : Int) then
    (((r.fieldlists.get? row.toNat).getD []).get? column.toNat).getD none
  else none

/-- An in-bounds int index reads the corresponding list element. -/
theorem listGetI_some {α : Type} (xs : List α) (i : Int) (h0 : 0 ≤ i)
    (hl : i < (xs.length : Int)) :
    ∃ a, listGetI xs i = some a ∧ xs.get? i.toNat = some a := by
  have hnat : i.toNat < xs.length := by omega
  cases hg : xs.get? i.toNat with
  | none =>
    rw [List.get?_eq_none] at hg
    omega
  | some a =>
    refine ⟨a, ?_, rfl⟩
    simp only [listGetI]
    rw [if_neg (by omega)]
    exact hg

/-- Successive `GetRow` calls preserve `rows` and `fieldlists` and move
`currentrow` from 0 up to `rows`, one row per call. -/
theorem rowState_steps (r : MySQLresult) (h0 : r.currentrow = 0)
    (hr0 : 0 ≤ r.rows) (hlen : r.rows ≤ (r.fieldlists.length : Int)) :
    ∀ k : Nat, (rowState r k).rows = r.rows ∧
      (rowState r k).fieldlists = r.fieldlists ∧
      (rowState r k).currentrow = min (k : Int) r.rows := by
  intro k
  induction k with
  | zero =>
    refine ⟨rfl, rfl, ?_⟩
    rw [rowState, h0]
    omega
  | succ k ih =>
    obtain ⟨ihr, ihf, ihc⟩ := ih
    have hstep : rowState r (k + 1) = (GetRow (rowState r k)).2 := rfl
    by_cases hk : (k : Int) < r.rows
    · have hcur : (rowState r k).currentrow = (k : Int) := by
        rw [ihc]; omega
      obtain ⟨fl, hfl, -⟩ :=
        listGetI_some (rowState r k).fieldlists (rowState r k).currentrow
          (by rw [hcur]; omega) (by rw [hcur, ihf]; omega)
      have hlt : (rowState r k).currentrow < (rowState r k).rows := by
        rw [hcur, ihr]; exact hk
      have hgr : GetRow (rowState r k)
          = (Access.ok (true, fl),
             { rowState r k with
                currentrow := (rowState r k).currentrow + 1 }) := by
        rw [GetRow, if_pos hlt, hfl]
      rw [hstep, hgr]
      refine ⟨ihr, ihf, ?_⟩
      simp only []
      rw [hcur]
      omega
    · have hge : ¬ (rowState r k).currentrow < (rowState r k).rows := by
        rw [ihc, ihr]; omega
      have hgr : GetRow (rowState r k)
          = (Access.ok (false, []), rowState r k) := by
        rw [GetRow, if_neg hge]
      rw [hstep, hgr]
      refine ⟨ihr, ihf, ?_⟩
      rw [ihc]
      omega

/-- C10: on a materialized result (fresh `currentrow`, and the constructor
invariant that `rows` is nonnegative and at most the length of
`fieldlists`), `GetValue` never reads out of bounds and returns exactly
the stored cell for in-range indices and the empty entry otherwise; and
the k-th successive `GetRow` call yields row k with result true while
`k < rows`, and false with a cleared output from then on, never reading
out of bounds. -/
theorem c10_result_accessors (r : MySQLresult)
    (h0 : r.currentrow = 0) (hr0 : 0 ≤ r.rows)
    (hlen : r.rows ≤ (r.fieldlists.length : Int)) :
    (∀ row column : Int,
      GetValue r row column = Access.ok (cellSpec r row column)) ∧
    (∀ k : Nat, (k : Int) < r.rows →
      nthGetRow r k = Access.ok (true, (r.fieldlists.get? k).getD [])) ∧
    (∀ k : Nat, r.rows ≤ (k : Int) →
      nthGetRow r k = Access.ok (false, [])) := by
  refine ⟨?_, ?_, ?_⟩
  · intro row column
    by_cases hrow : 0 ≤ row ∧ row < r.rows
    · by_cases hcol : 0 ≤ column
      · obtain ⟨fl, hfl, hfl2⟩ := listGetI_some r.fieldlists row hrow.1
          (by omega)
        have hflD : (r.fieldlists.get? row.toNat).getD [] = fl := by
          rw [hfl2]; rfl
        by_cases hcw : column < (fl.length : Int)
        · have hc2 : column.toNat < fl.length := by omega
          cases hv : fl.get? column.toNat with
          | none =>
            rw [List.get?_eq_none] at hv
            omega
          | some v =>
            have hgv : GetValue r row column = Access.ok v := by
              rw [GetValue, if_pos hrow, if_pos hcol, hfl]
              dsimp only
              rw [if_pos hcw, hv]
            have hcs : cellSpec r row column = v := by
              rw [cellSpec, if_pos ⟨hrow.1, hrow.2, hcol, by rw [hflD]; exact hcw⟩]
              rw [hflD, hv]
              rfl
            rw [hgv, hcs]
        · have hgv : GetValue r row column = Access.ok none := by
            rw [GetValue, if_pos hrow, if_pos hcol, hfl]
            dsimp only
            rw [if_neg hcw]
          have hcs : cellSpec r row column = none := by
            rw [cellSpec, if_neg]
            intro hcon
            rw [hflD] at hcon
            exact hcw hcon.2.2.2
          rw [hgv, hcs]
      · have hgv : GetValue r row column = Access.ok none := by
          rw [GetValue, if_pos hrow, if_neg hcol]
        have hcs : cellSpec r row column = none := by
          rw [cellSpec, if_neg]
          intro hcon
          exact hcol hcon.2.2.1
        rw [hgv, hcs]
    · have hgv : GetValue r row column = Access.ok none := by
        rw [GetValue, if_neg hrow]
      have hcs : cellSpec r row column = none := by
        rw [cellSpec, if_neg]
        intro hcon
        exact hrow ⟨hcon.1, hcon.2.1⟩
      rw [hgv, hcs]
  · intro k hk
    obtain ⟨ihr, ihf, ihc⟩ := rowState_steps r h0 hr0 hlen k
    have hcur : (rowState r k).currentrow = (k : Int) := by
      rw [ihc]; omega
    obtain ⟨fl, hfl, hfl2⟩ :=
      listGetI_some (rowState r k).fieldlists (rowState r k).currentrow
        (by rw [hcur]; omega) (by rw [hcur, ihf]; omega)
    have hlt : (rowState r k).currentrow < (rowState r k).rows := by
      rw [hcur, ihr]; exact hk
    have hD : (r.fieldlists.get? k).getD [] = fl := by
      rw [ihf] at hfl2
      rw [hcur] at hfl2
      have : ((k : Int)).toNat = k := by omega
      rw [this] at hfl2
      rw [hfl2]
      rfl
    rw [nthGetRow, GetRow, if_pos hlt, hfl, hD]
  · intro k hk
    obtain ⟨ihr, ihf, ihc⟩ := rowState_steps r h0 hr0 hlen k
    have hge : ¬ (rowState r k).currentrow < (rowState r k).rows := by
      rw [ihc, ihr]; omega
    rw [nthGetRow, GetRow, if_neg hge]

/-- A concrete two-row result set: row 0 holds one cell, row 1 is an empty
padding row. -/
def resW : MySQLresult :=
  { errid := 0, currentrow := 0, rows := 2,
    fieldlists := [[some "a"], []] }

/-- C10 witness: `c10_result_accessors` on the concrete result: in-range
and out-of-range `GetValue` calls, and the three successive `GetRow`
outcomes. -/
theorem c10_result_accessors_witness :
    GetValue resW 0 0 = Access.ok (some "a") ∧
    GetValue resW 0 1 = Access.ok none ∧
    GetValue resW 5 0 = Access.ok none ∧
    nthGetRow resW 0 = Access.ok (true, [some "a"]) ∧
    nthGetRow resW 1 = Access.ok (true, []) ∧
    nthGetRow resW 2 = Access.ok (false, []) := by
  have h := c10_result_accessors resW rfl (by decide) (by decide)
  exact ⟨h.1 0 0, h.1 0 1, h.1 5 0, h.2.1 0 (by decide), h.2.1 1 (by decide),
         h.2.2 2 (by decide)⟩

/-- The row-materialisation loop of the `MySQLresult` constructor: for each
fetched row, grow `fieldlists` by one empty row when its size is below
`rows + 1`, stop early if the result reports zero fields, otherwise store
the row's cells at index `n` (a NULL cell becomes the empty entry) and
advance `n` and `rows`. -/
def mkLoop (numFields : Nat) :
    List (List (Option String)) → Int → List (List (Option String)) → Nat →
    Int × List (List (Option String))
  | [], rows, fl, _ => (rows, fl)
  | rowv :: rest, rows, fl, n =>
    let fl1 := if fl.length < rows.toNat + 1 then fl ++ [[]] else fl
    if numFields = 0 then (rows, fl1)
    else
      mkLoop numFields rest (rows + 1)
        (fl1.set n (((fl1.get? n).getD []) ++
          (List.range numFields).map (fun fc => (rowv.get? fc).getD none)))
        (n + 1)

/-- The `MySQLresult(MYSQL_RES*, int)` constructor: seed `rows` and
`fieldlists` from `affected_rows` when it is at least 1, then run the
fetch loop when a result handle is present (`resData` carries the field
count and the fetched rows); `currentrow` starts at 0 and the error id at
`SQL_NO_ERROR`. -/
def mkMySQLresult (affected : Int)
    (resData : Option (Nat × List (List (Option String)))) : MySQLresult :=
  match resData with
  | none =>
    ⟨SQL_NO_ERROR, 0, if affected ≥ 1 then affected else 0,
     if affected ≥ 1 then List.replicate affected.toNat [] else []⟩
  | some (numFields, fetched) =>
    ⟨SQL_NO_ERROR, 0,
     (mkLoop numFields fetched (if affected ≥ 1 then affected else 0)
        (if affected ≥ 1 then List.replicate affected.toNat [] else []) 0).1,
     (mkLoop numFields fetched (if affected ≥ 1 then affected else 0)
        (if affected ≥ 1 then List.replicate affected.toNat [] else []) 0).2⟩

/-- The fetch loop keeps `rows` nonnegative and at most the length of
`fieldlists`. -/
theorem mkLoop_inv (numFields : Nat) :
    ∀ (fetched : List (List (Option String))) (rows : Int)
      (fl : List (List (Option String))) (n : Nat),
      0 ≤ rows → rows ≤ (fl.length : Int) →
      0 ≤ (mkLoop numFields fetched rows fl n).1 ∧
      (mkLoop numFields fetched rows fl n).1
        ≤ ((mkLoop numFields fetched rows fl n).2.length : Int) := by
  intro fetched
  induction fetched with
  | nil =>
    intro rows fl n h0 h1
    exact ⟨h0, h1⟩
  | cons rowv rest ih =>
    intro rows fl n h0 h1
    simp only [mkLoop]
    have hfl1 : rows + 1
        ≤ (((if fl.length < rows.toNat + 1 then fl ++ [[]] else fl).length
            : Nat) : Int) := by
      split
      · rename_i hlt
        rw [List.length_append]
        simp only [List.length_singleton]
        omega
      · omega
    by_cases hz : numFields = 0
    · rw [if_pos hz]
      refine ⟨h0, ?_⟩
      show rows ≤ (((if fl.length < rows.toNat + 1 then fl ++ [[]]
          else fl).length : Nat) : Int)
      omega
    · rw [if_neg hz]
      apply ih
      · omega
      · rw [List.length_set]
        omega

/-- Every result the constructor materializes satisfies the accessor
preconditions of `c10_result_accessors`: `currentrow` is 0 and `rows`
lies between 0 and the length of `fieldlists`. -/
theorem mkMySQLresult_inv (affected : Int)
    (resData : Option (Nat × List (List (Option String)))) :
    (mkMySQLresult affected resData).currentrow = 0 ∧
    0 ≤ (mkMySQLresult affected resData).rows ∧
    (mkMySQLresult affected resData).rows
      ≤ ((mkMySQLresult affected resData).fieldlists.length : Int) := by
  have hseed : 0 ≤ (if affected ≥ 1 then affected else 0) ∧
      (if affected ≥ 1 then affected else 0)
        ≤ (((if affected ≥ 1
             then List.replicate affected.toNat ([] : List (Option String))
             else []).length : Nat) : Int) := by
    split
    · rename_i haff
      rw [List.length_replicate]
      omega
    · simp
  cases resData with
  | none => exact ⟨rfl, hseed.1, hseed.2⟩
  | some p =>
    obtain ⟨numFields, fetched⟩ := p
    have h := mkLoop_inv numFields fetched _ _ 0 hseed.1 hseed.2
    exact ⟨rfl, h.1, h.2⟩
